import Mathlib

/-!
A shallow embedding of `src/eval.go` from the magnolia repository: the
value model (`Value`, its `Eq` and `String` methods), the scope chain
(`scope.get` / `scope.put` / `scope.update`) and the tree-walking
evaluator `Context.evalExpr`.

Conventions of the embedding:
* Go strings and `[]byte` payloads are byte lists (`GoStr := List Nat`),
  since `StringValue` is a raw byte slice and object keys are produced
  from such bytes.
* Go's `int64` payload of `IntValue` is `Int`; none of the embedded code
  performs arithmetic on it, only comparisons, so no wrap-around site
  exists in the embedded fragment.
* `FloatValue` carries the 64-bit pattern of the float as a `Nat`
  (`bits`), and `==` on floats is IEEE-754 equality on that pattern.
* Heap-allocated mutable state (the `vars` maps of scopes) lives in an
  explicit `Store`; a Go `scope` chain (struct with a parent pointer) is
  the list of indices of its maps in the store, innermost first.
* The `defn *fnNode` pointer inside `FnValue` is modelled by a fresh
  numeric id drawn from a counter in the store: every evaluation of a
  `fnNode` takes the address of a fresh copy (`defn: &n`), so pointer
  equality of `defn` is exactly equality of these ids.
* A Go `panic` (interpreter fault) is `Res.fault`, a `runtimeError` is
  `Res.err`; reason strings are abbreviated but one-to-one with the
  source's messages. Recursion is fueled: `Res.oom` marks fuel
  exhaustion and is an artifact of the embedding, not of the program.
* `BuiltinFnValue` is declared outside the provided source file; no
  claim depends on it, so the value model omits it (calls of non-`fn`
  values take the `runtimeError` branch, as in the source).
-/

/-- A Go string / byte slice: a list of byte values. -/
abbrev GoStr := List Nat

/-- Decimal digits of a natural number, as ASCII bytes
(the core of `strconv.FormatInt(..., 10)`). -/
def natToDec (n : Nat) : GoStr :=
  if h : n < 10 then [48 + n] else natToDec (n / 10) ++ [48 + n % 10]
termination_by n
decreasing_by
  exact Nat.div_lt_self (by omega) (by omega)

/-- `IntValue.String()`: `strconv.FormatInt(int64(v), 10)`. -/
def intToDec (i : Int) : GoStr :=
  if i < 0 then 45 :: natToDec (-i).toNat else natToDec i.toNat

/-- IEEE-754 double: exponent bits are all ones and mantissa is nonzero. -/
def floatIsNaN (bits : Nat) : Bool :=
  (bits / 2 ^ 52) % 2 ^ 11 == 2047 && bits % 2 ^ 52 != 0

/-- IEEE-754 double: +0.0 or -0.0 (all bits below the sign bit are zero). -/
def floatIsZero (bits : Nat) : Bool :=
  bits % 2 ^ 63 == 0 && bits / 2 ^ 63 ≤ 1

/-- Go `==` on `float64`, on bit patterns: `false` if either side is NaN,
`true` for +0.0 vs -0.0, otherwise bit equality. -/
def floatEqBits (a b : Nat) : Bool :=
  if floatIsNaN a || floatIsNaN b then false
  else if floatIsZero a && floatIsZero b then true
  else a == b

/-- `FloatValue.String()`, i.e. `strconv.FormatFloat(float64(v), 'g', -1, 64)`.
The Go standard library's shortest-round-trip digit algorithm is not
reproduced here; it is abstracted as a deterministic function of the bit
pattern. No claim depends on the digit sequence itself, only on the fact
that the object-literal key path and the property-access read path apply
this same function to equal floats. -/
def floatStr (bits : Nat) : GoStr :=
  102 :: natToDec bits

/-- The AST node taxonomy consumed by `Context.evalExpr` (produced by the
external parser; field layout follows the `case` arms of the evaluator).
Operator payloads of `unaryNode`/`binaryNode` are opaque numbers: the
evaluator panics on both before inspecting them. -/
inductive Node where
  | emptyLit : Node
  | nullLit : Node
  | strLit (payload : GoStr) : Node
  | intLit (i : Int) : Node
  | floatLit (bits : Nat) : Node
  | boolLit (b : Bool) : Node
  | atomLit (payload : GoStr) : Node
  | listLit (elems : List Node) : Node
  | objLit (entries : List (Node × Node)) : Node
  | fnLit (name : GoStr) (params : List GoStr) (body : Node) : Node
  | ident (payload : GoStr) : Node
  | assign (isLocal : Bool) (left : Node) (right : Node) : Node
  | propAccess (left : Node) (right : Node) : Node
  | unary (op : Nat) (operand : Node) : Node
  | binary (op : Nat) (l : Node) (r : Node) : Node
  | fnCall (fn : Node) (args : List Node) : Node
  | ifExpr (cond : Node) (branches : List (Node × Node)) : Node
  | block (exprs : List Node) : Node

/-- The runtime value variants of `eval.go`. An anonymous `fnNode` has
`name = []` (Go `""`). A `fn`'s `chain` is its captured scope chain
(indices into the store), and `id` models the `defn *fnNode` pointer. -/
inductive Value where
  | empty : Value
  | null : Value
  | str (bytes : GoStr) : Value
  | int (i : Int) : Value
  | float (bits : Nat) : Value
  | bool (b : Bool) : Value
  | atom (name : GoStr) : Value
  | list (elems : List Value) : Value
  | object (entries : List (GoStr × Value)) : Value
  | fn (id : Nat) (name : GoStr) (params : List GoStr) (body : Node)
      (chain : List Nat) : Value

/-- `true` exactly on the `Function` variant. -/
def Value.isFn : Value → Bool
  | .fn _ _ _ _ _ => true
  | _ => false

mutual
/-- The `Eq` method of each `Value` variant, dispatching on the receiver:
every variant except `FnValue` first special-cases an `EmptyValue`
operand; `FnValue.Eq` compares `defn` pointers (here: ids) only. -/
def valueEq : Value → Value → Bool
  | .empty, _ => true
  | .null, u =>
    match u with
    | .empty => true
    | .null => true
    | _ => false
  | .str b, u =>
    match u with
    | .empty => true
    | .str c => b == c
    | _ => false
  | .int i, u =>
    match u with
    | .empty => true
    | .int j => i == j
    | _ => false
  | .float a, u =>
    match u with
    | .empty => true
    | .float b => floatEqBits a b
    | _ => false
  | .bool a, u =>
    match u with
    | .empty => true
    | .bool b => a == b
    | _ => false
  | .atom a, u =>
    match u with
    | .empty => true
    | .atom b => a == b
    | _ => false
  | .list xs, u =>
    match u with
    | .empty => true
    | .list ys => valueListEq xs ys
    | _ => false
  | .object es, u =>
    match u with
    | .empty => true
    | .object fs => es.length == fs.length && valueObjSub es fs
    | _ => false
  | .fn i _ _ _ _, u =>
    match u with
    | .fn j _ _ _ _ => i == j
    | _ => false

/-- `ListValue.Eq` on same-length lists: elementwise `Eq` (length equality
is checked before calling this; the `[]`/`[]` base returns `true` and a
length mismatch surfaces as `false` in the last arm). -/
def valueListEq : List Value → List Value → Bool
  | [], [] => true
  | x :: xs, y :: ys => valueEq x y && valueListEq xs ys
  | _, _ => false

/-- The loop of `ObjectValue.Eq`: every key of the receiver is present in
the operand with an `Eq`-equal value. -/
def valueObjSub : List (GoStr × Value) → List (GoStr × Value) → Bool
  | [], _ => true
  | (k, v) :: rest, fs =>
    (match fs.lookup k with
     | some w => valueEq v w
     | none => false) && valueObjSub rest fs
end

/-- `strings.Join(strs, ", ")`. -/
def joinComma : List GoStr → GoStr
  | [] => []
  | [x] => x
  | x :: y :: xs => x ++ [44, 32] ++ joinComma (y :: xs)

mutual
/-- The `String()` method of each `Value` variant: `_` for empty, `?` for
null, strings wrapped in single quotes, decimal ints, `:`-prefixed
atoms, bracketed comma-joined lists and objects. Object entries are
iterated here in insertion order (the Go map's iteration order is
unspecified; no claim depends on an object's display form). `FnValue`
displays via `fnNode.String()`, which is defined outside the provided
source; it is rendered as the fixed bytes of `fn` here, and no claim
depends on it. -/
def valueString : Value → GoStr
  | .empty => [95]
  | .null => [63]
  | .str b => 39 :: (b ++ [39])
  | .int i => intToDec i
  | .float bits => floatStr bits
  | .bool true => [116, 114, 117, 101]
  | .bool false => [102, 97, 108, 115, 101]
  | .atom a => 58 :: a
  | .list xs => 91 :: (joinComma (valueStrings xs) ++ [93])
  | .object es => 123 :: (joinComma (entryStrings es) ++ [125])
  | .fn _ _ _ _ _ => [102, 110]

/-- `String()` of each element of a list, in order. -/
def valueStrings : List Value → List GoStr
  | [] => []
  | v :: vs => valueString v :: valueStrings vs

/-- `key + ": " + val.String()` for each object entry, in order. -/
def entryStrings : List (GoStr × Value) → List GoStr
  | [] => []
  | (k, v) :: es => (k ++ [58, 32] ++ valueString v) :: entryStrings es
end

/-- Assignment into a Go map, on the association list that models it:
replace the value at an existing key in place, or append a new entry. -/
def mapPut (m : List (GoStr × Value)) (k : GoStr) (v : Value) :
    List (GoStr × Value) :=
  match m with
  | [] => [(k, v)]
  | (k', v') :: rest =>
    if k' = k then (k, v) :: rest else (k', v') :: mapPut rest k v

/-- The heap of the embedding: the `vars` maps of all live scopes
(indexed by position) plus the allocation counter that models the
freshness of `defn *fnNode` pointers. -/
structure Store where
  scopes : List (List (GoStr × Value))
  nextFn : Nat

/-- The map of scope `idx`, an invalid index acting as an empty map
(never reached by evaluation, which only produces live indices). -/
def Store.varsAt (st : Store) (idx : Nat) : List (GoStr × Value) :=
  st.scopes.getD idx []

/-- `scope.get`: look up the name in the local `vars` map, else delegate
to the parent; `none` models the `runtimeError` at the root. -/
def scopeGet (st : Store) : List Nat → GoStr → Option Value
  | [], _ => none
  | idx :: rest, name =>
    match (st.varsAt idx).lookup name with
    | some v => some v
    | none => scopeGet st rest name

/-- `scope.put`: unconditionally create-or-overwrite the name in the
local (innermost) `vars` map only. -/
def scopePut (st : Store) (chain : List Nat) (name : GoStr) (v : Value) :
    Store :=
  match chain with
  | [] => st
  | idx :: _ =>
    { st with scopes := st.scopes.set idx (mapPut (st.varsAt idx) name v) }

/-- `scope.update`: overwrite the name where the local map already binds
it, else delegate to the parent; `none` models the `runtimeError` when
the search exhausts the chain. -/
def scopeUpdate (st : Store) : List Nat → GoStr → Value → Option Store
  | [], _, _ => none
  | idx :: rest, name, v =>
    if ((st.varsAt idx).lookup name).isSome then
      some { st with
             scopes := st.scopes.set idx (mapPut (st.varsAt idx) name v) }
    else scopeUpdate st rest name v

/-- Allocate a fresh empty scope map; returns its index and the grown
store (models `scope{parent: ..., vars: map[string]Value{}}`). -/
def allocScope (st : Store) : Nat × Store :=
  (st.scopes.length, { st with scopes := st.scopes ++ [[]] })

/-- `fnScope.put` over a parameter/argument list, in order. -/
def putAll (st : Store) (chain : List Nat) :
    List (GoStr × Value) → Store
  | [] => st
  | (k, v) :: rest => putAll (scopePut st chain k v) chain rest

/-- The key-stringification switch of the `objectNode` case: a String
key keeps its raw bytes, Int and Float keys take their `String()` form,
everything else is rejected (`none` models the `InvalidKeyType` error). -/
def goKeyString : Value → Option GoStr
  | .str b => some b
  | .int i => some (intToDec i)
  | .float bits => some (floatStr bits)
  | _ => none

/-- `true` exactly on `identifierNode` (the `entry.key.(identifierNode)`
type assertion of the `objectNode` case). -/
def Node.isIdent : Node → Bool
  | .ident _ => true
  | _ => false

/-- Outcome of an evaluation step: a value (with the updated store), a
`runtimeError`, a Go `panic` (`fault`), or fuel exhaustion (`oom`, an
artifact of the fueled embedding). -/
inductive Res (α : Type) where
  | ok (a : α) : Res α
  | err (reason : String) : Res α
  | fault (reason : String) : Res α
  | oom : Res α
deriving Repr

/-- The value of an `ok` outcome, discarding the store. -/
def resValue : Res (Value × Store) → Option Value
  | .ok (v, _) => some v
  | _ => none

mutual
/-- `Context.evalExpr(node, sc)`. The first argument is fuel: every
recursive call (including the traversal of element/entry/branch lists,
which in Go happens inside one invocation) steps it down once; `oom`
never occurs at sufficient fuel. -/
def evalExpr : Nat → Node → List Nat → Store → Res (Value × Store)
  | 0, _, _, _ => .oom
  | fuel + 1, node, chain, st =>
    match node with
    | .emptyLit => .ok (.empty, st)
    | .nullLit => .ok (.null, st)
    | .strLit p => .ok (.str p, st)
    | .intLit i => .ok (.int i, st)
    | .floatLit b => .ok (.float b, st)
    | .boolLit b => .ok (.bool b, st)
    | .atomLit a => .ok (.atom a, st)
    | .listLit elems =>
      match evalList fuel elems chain st with
      | .ok (vs, st') => .ok (.list vs, st')
      | .err r => .err r
      | .fault r => .fault r
      | .oom => .oom
    | .objLit entries =>
      match evalEntries fuel entries chain st [] with
      | .ok (es, st') => .ok (.object es, st')
      | .err r => .err r
      | .fault r => .fault r
      | .oom => .oom
    | .fnLit name params body =>
      let v := Value.fn st.nextFn name params body chain
      let st1 : Store := { st with nextFn := st.nextFn + 1 }
      if name = [] then .ok (v, st1)
      else .ok (v, scopePut st1 chain name v)
    | .ident x =>
      match scopeGet st chain x with
      | some v => .ok (v, st)
      | none => .err "is undefined"
    | .assign isLocal left right =>
      match evalExpr fuel right chain st with
      | .ok (v, st') =>
        match left with
        | .ident x =>
          if isLocal then .ok (v, scopePut st' chain x v)
          else
            match scopeUpdate st' chain x v with
            | some st'' => .ok (v, st'')
            | none => .err "is undefined"
        | .listLit _ => .fault "list destructuring not implemented"
        | .objLit _ => .fault "object destructuring not implemented"
        | .propAccess _ _ => .fault "assign to property not implemented"
        | _ => .fault "Illegal left-hand side of assignment"
      | .err r => .err r
      | .fault r => .fault r
      | .oom => .oom
    | .propAccess l r =>
      match evalExpr fuel l chain st with
      | .ok (lv, st1) =>
        match evalExpr fuel r chain st1 with
        | .ok (rv, st2) =>
          match lv with
          | .str bytes =>
            match rv with
            | .int i =>
              if i < 0 || i > (bytes.length : Int) then .ok (.null, st2)
              else
                match bytes.get? i.toNat with
                | some b => .ok (.str [b], st2)
                | none => .fault "index out of range"
            | _ => .err "Cannot index into string with non-integer index"
          | .list xs =>
            match rv with
            | .int i =>
              if i < 0 || i > (xs.length : Int) then .ok (.null, st2)
              else
                match xs.get? i.toNat with
                | some v => .ok (v, st2)
                | none => .fault "index out of range"
            | _ => .err "Cannot index into list with non-integer index"
          | .object es =>
            match es.lookup (valueString rv) with
            | some v => .ok (v, st2)
            | none => .ok (.null, st2)
          | _ => .err "Expected string, list, or object in property access"
        | .err r => .err r
        | .fault r => .fault r
        | .oom => .oom
      | .err r => .err r
      | .fault r => .fault r
      | .oom => .oom
    | .unary _ _ => .fault "unaryNode not implemented"
    | .binary _ _ _ => .fault "binaryNode not implemented"
    | .fnCall f argNodes =>
      match evalExpr fuel f chain st with
      | .ok (fv, st1) =>
        match evalList fuel argNodes chain st1 with
        | .ok (args, st2) =>
          match fv with
          | .fn _ _ params body fchain =>
            if params.length ≤ args.length then
              let idx := (allocScope st2).1
              let st3 := (allocScope st2).2
              let fchain' := idx :: fchain
              let st4 := putAll st3 fchain'
                (params.zip (args.take params.length))
              evalExpr fuel body fchain' st4
            else .fault "slice bounds out of range"
          | _ => .err "is not a function and cannot be called"
        | .err r => .err r
        | .fault r => .fault r
        | .oom => .oom
      | .err r => .err r
      | .fault r => .fault r
      | .oom => .oom
    | .ifExpr cond branches =>
      match evalExpr fuel cond chain st with
      | .ok (c, st1) => evalBranches fuel c branches chain st1
      | .err r => .err r
      | .fault r => .fault r
      | .oom => .oom
    | .block exprs =>
      evalSeq fuel exprs ((allocScope st).1 :: chain) (allocScope st).2
        .null

/-- The element loop of `listNode` and of `fnCallNode` arguments:
left-to-right, first error short-circuits. -/
def evalList : Nat → List Node → List Nat → Store →
    Res (List Value × Store)
  | 0, _, _, _ => .oom
  | _ + 1, [], _, st => .ok ([], st)
  | fuel + 1, n :: ns, chain, st =>
    match evalExpr fuel n chain st with
    | .ok (v, st') =>
      match evalList fuel ns chain st' with
      | .ok (vs, st'') => .ok (v :: vs, st'')
      | .err r => .err r
      | .fault r => .fault r
      | .oom => .oom
    | .err r => .err r
    | .fault r => .fault r
    | .oom => .oom

/-- The entry loop of `objectNode`: a bare-identifier key is used
literally without evaluation; any other key expression is evaluated and
stringified by `goKeyString` (or rejected); then the value expression is
evaluated and the entry is written into the map (overwriting an earlier
entry at the same key). -/
def evalEntries : Nat → List (Node × Node) → List Nat → Store →
    List (GoStr × Value) → Res (List (GoStr × Value) × Store)
  | 0, _, _, _, _ => .oom
  | _ + 1, [], _, st, acc => .ok (acc, st)
  | fuel + 1, (k, vexpr) :: rest, chain, st, acc =>
    match k with
    | .ident name =>
      match evalExpr fuel vexpr chain st with
      | .ok (v, st') => evalEntries fuel rest chain st' (mapPut acc name v)
      | .err r => .err r
      | .fault r => .fault r
      | .oom => .oom
    | _ =>
      match evalExpr fuel k chain st with
      | .ok (kv, st1) =>
        match goKeyString kv with
        | some ks =>
          match evalExpr fuel vexpr chain st1 with
          | .ok (v, st2) => evalEntries fuel rest chain st2 (mapPut acc ks v)
          | .err r => .err r
          | .fault r => .fault r
          | .oom => .oom
        | none => .err "Expected a string or number as object key"
      | .err r => .err r
      | .fault r => .fault r
      | .oom => .oom

/-- The branch loop of `ifExprNode`: evaluate each branch target in
order; on the first target with `cond.Eq(target)` evaluate that branch's
body and stop; an exhausted branch list yields `null`. -/
def evalBranches : Nat → Value → List (Node × Node) → List Nat → Store →
    Res (Value × Store)
  | 0, _, _, _, _ => .oom
  | _ + 1, _, [], _, st => .ok (.null, st)
  | fuel + 1, c, (pat, body) :: rest, chain, st =>
    match evalExpr fuel pat chain st with
    | .ok (t, st') =>
      if valueEq c t then evalExpr fuel body chain st'
      else evalBranches fuel c rest chain st'
    | .err r => .err r
    | .fault r => .fault r
    | .oom => .oom

/-- The expression loop of `blockNode`: each expression runs in the block
scope; the block's value is the last expression's value, `null` for an
empty block. -/
def evalSeq : Nat → List Node → List Nat → Store → Value →
    Res (Value × Store)
  | 0, _, _, _, _ => .oom
  | _ + 1, [], _, st, last => .ok (last, st)
  | fuel + 1, e :: rest, chain, st, _ =>
    match evalExpr fuel e chain st with
    | .ok (v, st') => evalSeq fuel rest chain st' v
    | .err r => .err r
    | .fault r => .fault r
    | .oom => .oom
end

/-- The store of a fresh `Context` (`NewContext`): one empty root scope
map, no function values allocated yet. -/
def st0 : Store := ⟨[[]], 0⟩

/-- The scope chain of a fresh `Context`: just the root scope. -/
def rootChain : List Nat := [0]

/-- C1: the claim says every variant's `Eq` returns `true` on an `Empty`
operand, including `Function` values; but `FnValue.Eq` has no
`EmptyValue` case and returns `false` whenever its operand is not a
`FnValue`, so a concrete function value is not `Eq`-equal to `Empty`
(while `Empty.Eq` of that function is `true`). -/
theorem fn_eq_empty_is_false :
    ¬ (valueEq (Value.fn 0 [] [] Node.nullLit []) Value.empty = true) := by
  decide

/-- C1 (amended): `Empty.Eq(v)` is true for every value `v`, and
`v.Eq(Empty)` is true for every non-`Function` variant, each variant's
`Eq` special-casing an `Empty` operand; a `Function`'s `Eq` has no such
case and yields `false` on `Empty`. -/
theorem eq_empty_special_cases (v : Value) :
    valueEq Value.empty v = true ∧
    (v.isFn = false → valueEq v Value.empty = true) ∧
    (v.isFn = true → valueEq v Value.empty = false) := by
  refine ⟨rfl, ?_, ?_⟩ <;> cases v <;> simp [valueEq, Value.isFn]

/-- Witness for `eq_empty_special_cases` at the values `3` and a
concrete function. -/
theorem eq_empty_special_cases_witness :
    valueEq Value.empty (Value.int 3) = true ∧
    valueEq (Value.int 3) Value.empty = true ∧
    valueEq (Value.fn 2 [] [] Node.nullLit []) Value.empty = false :=
  ⟨(eq_empty_special_cases (.int 3)).1,
   (eq_empty_special_cases (.int 3)).2.1 rfl,
   (eq_empty_special_cases (.fn 2 [] [] .nullLit [])).2.2 rfl⟩

/-- C10: `FnValue.Eq` is identity of the `defn` pointer (here: the
allocation id): it decides exactly `id` equality, so every function
value equals itself; it is `false` on every non-`Function` operand; and
two evaluations of the same anonymous function literal inside one list
produce values with distinct ids that are not `Eq`-equal. -/
theorem fn_eq_is_defn_identity :
    (∀ i nm ps b ch j nm' ps' b' ch',
      valueEq (.fn i nm ps b ch) (.fn j nm' ps' b' ch') = (i == j))
    ∧ (∀ i nm ps b ch, valueEq (.fn i nm ps b ch) (.fn i nm ps b ch) = true)
    ∧ (∀ i nm ps b ch (v : Value), v.isFn = false →
        valueEq (.fn i nm ps b ch) v = false)
    ∧ evalExpr 4 (.listLit [.fnLit [] [] .nullLit, .fnLit [] [] .nullLit])
        rootChain st0 =
      .ok (.list [.fn 0 [] [] .nullLit rootChain,
                  .fn 1 [] [] .nullLit rootChain], ⟨[[]], 2⟩)
    ∧ valueEq (.fn 0 [] [] .nullLit rootChain)
        (.fn 1 [] [] .nullLit rootChain) = false := by
  refine ⟨fun _ _ _ _ _ _ _ _ _ _ => rfl, ?_, ?_, rfl, rfl⟩
  · intro i nm ps b ch; simp [valueEq]
  · intro i nm ps b ch v h; cases v <;> simp_all [valueEq, Value.isFn]

/-- Witness for `fn_eq_is_defn_identity`: a function value is not
`Eq`-equal to the integer `3`. -/
theorem fn_eq_is_defn_identity_witness :
    valueEq (.fn 5 [] [] .nullLit []) (Value.int 3) = false :=
  fn_eq_is_defn_identity.2.2.1 5 [] [] .nullLit [] (.int 3) rfl

/-- C2: indexing the string `abc` at its length 3 hits the Go panic
`index out of range` (the guard admits `index == length` because it
tests `> len`, then reads `target[index]`), instead of returning `Null`
as the claim states; indexes strictly above the length and negative
indexes do return `Null`, and in-range indexes return the one-byte
string / the list element. The same off-by-one faults list indexing at
the list's length. -/
theorem index_at_length_faults :
    evalExpr 3 (.propAccess (.strLit [97, 98, 99]) (.intLit 3)) rootChain st0
      = .fault "index out of range"
    ∧ evalExpr 3 (.propAccess (.strLit [97, 98, 99]) (.intLit 1)) rootChain st0
      = .ok (.str [98], st0)
    ∧ evalExpr 3 (.propAccess (.strLit [97, 98, 99]) (.intLit (-1)))
        rootChain st0 = .ok (.null, st0)
    ∧ evalExpr 3 (.propAccess (.strLit [97, 98, 99]) (.intLit 4)) rootChain st0
      = .ok (.null, st0)
    ∧ evalExpr 6 (.propAccess (.listLit [.intLit 7]) (.intLit 1)) rootChain st0
      = .fault "index out of range"
    ∧ evalExpr 6 (.propAccess (.listLit [.intLit 7]) (.intLit 0)) rootChain st0
      = .ok (.int 7, st0) :=
  ⟨rfl, rfl, rfl, rfl, rfl, rfl⟩

/-- C3: calling a two-parameter function with zero arguments hits the Go
panic `slice bounds out of range` (the reslice `args[:len(fn.defn.args)]`
exceeds the argument slice's capacity) instead of binding the missing
parameters to `Null` as the claim states; the other half of the claim
holds: arguments beyond the declared arity are dropped by the same
reslice, so calling a one-parameter identity function with two arguments
returns the first. -/
theorem call_missing_args_faults :
    evalExpr 5 (.fnCall (.fnLit [] [[97], [98]] (.ident [97])) []) rootChain st0
      = .fault "slice bounds out of range"
    ∧ resValue (evalExpr 6 (.fnCall (.fnLit [] [[97]] (.ident [97]))
        [.intLit 1, .intLit 2]) rootChain st0) = some (.int 1) :=
  ⟨rfl, rfl⟩

/-- C7: the claim says binary operator expressions evaluate their
operands and apply arithmetic/comparison/logical semantics with
int-to-float promotion; the evaluator instead panics `not implemented`
on every `unaryNode` and `binaryNode`, before evaluating any operand. -/
theorem operator_nodes_fault :
    (∀ fuel op l r chain st, evalExpr (fuel + 1) (.binary op l r) chain st
      = .fault "binaryNode not implemented")
    ∧ (∀ fuel op e chain st, evalExpr (fuel + 1) (.unary op e) chain st
      = .fault "unaryNode not implemented") :=
  ⟨fun _ _ _ _ _ _ => rfl, fun _ _ _ _ _ => rfl⟩

/-- C8: the claim says a list-pattern assignment destructures the
right-hand list positionally (with a `DestructureArityError` on length
mismatch); the evaluator instead evaluates the right-hand side and then
panics `list destructuring not implemented` for every list-shaped
target, local or nonlocal, even at matching lengths. -/
theorem list_destructure_faults :
    evalExpr 6 (.assign true (.listLit [.ident [98]]) (.listLit [.intLit 2]))
      rootChain st0 = .fault "list destructuring not implemented"
    ∧ evalExpr 6 (.assign false (.listLit [.ident [98], .ident [99]])
        (.listLit [.intLit 2, .intLit 3])) rootChain st0
      = .fault "list destructuring not implemented" :=
  ⟨rfl, rfl⟩

/-- C4: an `ifExprNode` evaluates its subject once and hands the
resulting value to the branch loop; the branch loop returns `Null` on an
empty branch list; a first branch whose target evaluates to a value
`Eq`-equal to the subject has its body evaluated and returned, with the
outcome independent of all later branches (they are never evaluated); a
non-matching first branch is skipped, continuing with the rest. The
closed conjunct runs the README's fizzbuzz-shaped match: subject `[0,5]`
against `[0,0] -> A, [0,_] -> B, [_,0] -> C, _ -> D` picks `B`. -/
theorem ifMatch_first_match_wins :
    (∀ fuel cond branches chain st,
      evalExpr (fuel + 1) (.ifExpr cond branches) chain st =
        match evalExpr fuel cond chain st with
        | .ok (c, st1) => evalBranches fuel c branches chain st1
        | .err r => .err r
        | .fault r => .fault r
        | .oom => .oom)
    ∧ (∀ fuel c chain st,
        evalBranches (fuel + 1) c [] chain st = .ok (.null, st))
    ∧ (∀ fuel c pat body rest rest' chain st t st',
        evalExpr fuel pat chain st = .ok (t, st') → valueEq c t = true →
        evalBranches (fuel + 1) c ((pat, body) :: rest) chain st =
          evalExpr fuel body chain st'
        ∧ evalBranches (fuel + 1) c ((pat, body) :: rest) chain st =
          evalBranches (fuel + 1) c ((pat, body) :: rest') chain st)
    ∧ (∀ fuel c pat body rest chain st t st',
        evalExpr fuel pat chain st = .ok (t, st') → valueEq c t = false →
        evalBranches (fuel + 1) c ((pat, body) :: rest) chain st =
          evalBranches fuel c rest chain st')
    ∧ resValue (evalExpr 20 (.ifExpr (.listLit [.intLit 0, .intLit 5])
        [(.listLit [.intLit 0, .intLit 0], .atomLit [65]),
         (.listLit [.intLit 0, .emptyLit], .atomLit [66]),
         (.listLit [.emptyLit, .intLit 0], .atomLit [67]),
         (.emptyLit, .atomLit [68])]) rootChain st0)
      = some (.atom [66]) := by
  refine ⟨fun _ _ _ _ _ => rfl, fun _ _ _ _ => rfl, ?_, ?_, rfl⟩
  · intro fuel c pat body rest rest' chain st t st' h hEq
    constructor <;> simp [evalBranches, h, hEq]
  · intro fuel c pat body rest chain st t st' h hEq
    simp [evalBranches, h, hEq]

/-- `scope.update` overwrites in the first scope of the chain whose map
binds the name, rebinding only that map; the scopes below the match are
never consulted. -/
theorem scopeUpdate_found (st : Store) (name : GoStr) (v : Value) :
    ∀ (pre : List Nat) (idx : Nat) (rest : List Nat),
    (∀ j ∈ pre, (st.varsAt j).lookup name = none) →
    ((st.varsAt idx).lookup name).isSome = true →
    scopeUpdate st (pre ++ idx :: rest) name v =
      some { st with
             scopes := st.scopes.set idx (mapPut (st.varsAt idx) name v) }
  | [], idx, rest, _, hidx => by simp [scopeUpdate, hidx]
  | j :: pre, idx, rest, hpre, hidx => by
    have hj := hpre j (List.mem_cons_self j pre)
    simp [scopeUpdate, hj]
    exact scopeUpdate_found st name v pre idx rest
      (fun k hk => hpre k (List.mem_cons_of_mem j hk)) hidx

/-- `scope.update` reports the undefined-variable error, leaving every
scope map as it was, when no scope in the chain binds the name. -/
theorem scopeUpdate_not_found (st : Store) (name : GoStr) (v : Value) :
    ∀ chain : List Nat,
    (∀ j ∈ chain, (st.varsAt j).lookup name = none) →
    scopeUpdate st chain name v = none
  | [], _ => rfl
  | j :: rest, h => by
    have hj := h j (List.mem_cons_self j rest)
    simp [scopeUpdate, hj]
    exact scopeUpdate_not_found st name v rest
      (fun k hk => h k (List.mem_cons_of_mem j hk))

/-- C5: a local `:=` assignment to an identifier goes through
`scope.put` and a nonlocal `<-` assignment through `scope.update` (both
after evaluating the right-hand side); `update` overwrites the binding
in the nearest scope of the chain that defines the name, modifying only
that scope's map and stopping there; `update` fails with the
undefined-variable error, creating no binding, when no scope defines the
name; `put` writes only the innermost scope's map, leaving every other
scope untouched. The closed conjuncts run the spec's example: after
`n := 10` an inner block's `n <- 30` is seen by the outer scope, while
an inner `n := 30` is not. -/
theorem assignment_scoping :
    (∀ fuel x rhs chain st,
      evalExpr (fuel + 1) (.assign true (.ident x) rhs) chain st =
        match evalExpr fuel rhs chain st with
        | .ok (v, st') => .ok (v, scopePut st' chain x v)
        | .err r => .err r
        | .fault r => .fault r
        | .oom => .oom)
    ∧ (∀ fuel x rhs chain st,
      evalExpr (fuel + 1) (.assign false (.ident x) rhs) chain st =
        match evalExpr fuel rhs chain st with
        | .ok (v, st') =>
          match scopeUpdate st' chain x v with
          | some st'' => .ok (v, st'')
          | none => .err "is undefined"
        | .err r => .err r
        | .fault r => .fault r
        | .oom => .oom)
    ∧ (∀ st pre idx rest name v,
        (∀ j ∈ pre, (st.varsAt j).lookup name = none) →
        ((st.varsAt idx).lookup name).isSome = true →
        scopeUpdate st (pre ++ idx :: rest) name v =
          some { st with
                 scopes := st.scopes.set idx (mapPut (st.varsAt idx) name v) })
    ∧ (∀ st chain name v,
        (∀ j ∈ chain, (st.varsAt j).lookup name = none) →
        scopeUpdate st chain name v = none)
    ∧ (∀ st idx rest name v,
        scopePut st (idx :: rest) name v =
          { st with
            scopes := st.scopes.set idx (mapPut (st.varsAt idx) name v) }
        ∧ ∀ j, j ≠ idx →
            (scopePut st (idx :: rest) name v).varsAt j = st.varsAt j)
    ∧ resValue (evalExpr 12 (.block [.assign true (.ident [110]) (.intLit 10),
        .block [.assign false (.ident [110]) (.intLit 30)], .ident [110]])
        rootChain st0) = some (.int 30)
    ∧ resValue (evalExpr 12 (.block [.assign true (.ident [110]) (.intLit 10),
        .block [.assign true (.ident [110]) (.intLit 30)], .ident [110]])
        rootChain st0) = some (.int 10) := by
  refine ⟨fun _ _ _ _ _ => rfl, fun _ _ _ _ _ => rfl, ?_, ?_, ?_, rfl, rfl⟩
  · intro st pre idx rest name v hpre hidx
    exact scopeUpdate_found st name v pre idx rest hpre hidx
  · intro st chain name v h
    exact scopeUpdate_not_found st name v chain h
  · intro st idx rest name v
    refine ⟨rfl, ?_⟩
    intro j hj
    simp [scopePut, Store.varsAt, List.getD_eq_getElem?_getD,
      List.getElem?_set_ne (Ne.symm hj)]

/-- A two-scope store for the witness: an empty inner scope `0` and an
outer scope `1` binding `n` to `10`. -/
def stW : Store := ⟨[[], [([110], Value.int 10)]], 0⟩

/-- Witness for `assignment_scoping`: on `stW` a nonlocal write of `n`
lands in scope `1`, and a nonlocal write of the unbound `m` fails. -/
theorem assignment_scoping_witness :
    scopeUpdate stW [0, 1] [110] (Value.int 30)
      = some { stW with
               scopes := stW.scopes.set 1
                 (mapPut (stW.varsAt 1) [110] (Value.int 30)) }
    ∧ scopeUpdate stW [0, 1] [109] (Value.int 30) = none := by
  constructor
  · exact assignment_scoping.2.2.1 stW [0] 1 [] [110] (.int 30)
      (fun j hj => by rw [List.mem_singleton.mp hj]; rfl) rfl
  · exact assignment_scoping.2.2.2.1 stW [0, 1] [109] (.int 30)
      (fun j hj => by fin_cases hj <;> rfl)

/-- Assigning a key that is already present replaces its value in place,
so re-putting the same key keeps only the later value. -/
theorem mapPut_overwrite (m : List (GoStr × Value)) (k : GoStr)
    (v1 v2 : Value) :
    mapPut (mapPut m k v1) k v2 = mapPut m k v2 := by
  induction m with
  | nil => simp [mapPut]
  | cons kv rest ih =>
    obtain ⟨k', v'⟩ := kv
    by_cases hk : k' = k
    · simp [mapPut, hk]
    · simp [mapPut, hk, ih]

/-- C6: an object-literal entry whose key is a bare identifier uses that
name literally — only the value expression is evaluated, so an unbound
identifier key succeeds; any other key expression is evaluated and its
result stringified by the key switch, which accepts a String (raw
bytes), an Int or a Float (their `String()` forms) and rejects every
other variant with the invalid-key error; entries are processed
left-to-right and a later entry with the same key overwrites the
earlier one's value. -/
theorem object_literal_keys :
    (∀ fuel name vexpr rest chain st acc,
      evalEntries (fuel + 1) ((.ident name, vexpr) :: rest) chain st acc =
        match evalExpr fuel vexpr chain st with
        | .ok (v, st') => evalEntries fuel rest chain st' (mapPut acc name v)
        | .err r => .err r
        | .fault r => .fault r
        | .oom => .oom)
    ∧ resValue (evalExpr 4 (.objLit [(.ident [120], .intLit 1)]) rootChain st0)
      = some (.object [([120], .int 1)])
    ∧ (∀ fuel (k : Node) vexpr rest chain st acc, k.isIdent = false →
        evalEntries (fuel + 1) ((k, vexpr) :: rest) chain st acc =
          match evalExpr fuel k chain st with
          | .ok (kv, st1) =>
            match goKeyString kv with
            | some ks =>
              match evalExpr fuel vexpr chain st1 with
              | .ok (v, st2) =>
                evalEntries fuel rest chain st2 (mapPut acc ks v)
              | .err r => .err r
              | .fault r => .fault r
              | .oom => .oom
            | none => .err "Expected a string or number as object key"
          | .err r => .err r
          | .fault r => .fault r
          | .oom => .oom)
    ∧ (∀ b, goKeyString (.str b) = some b)
    ∧ (∀ i, goKeyString (.int i) = some (intToDec i))
    ∧ (∀ bits, goKeyString (.float bits) = some (floatStr bits))
    ∧ goKeyString .empty = none
    ∧ goKeyString .null = none
    ∧ (∀ b, goKeyString (.bool b) = none)
    ∧ (∀ a, goKeyString (.atom a) = none)
    ∧ (∀ xs, goKeyString (.list xs) = none)
    ∧ (∀ es, goKeyString (.object es) = none)
    ∧ (∀ i nm ps b ch, goKeyString (.fn i nm ps b ch) = none)
    ∧ evalExpr 4 (.objLit [(.boolLit true, .intLit 1)]) rootChain st0
      = .err "Expected a string or number as object key"
    ∧ (∀ m k v1 v2, mapPut (mapPut m k v1) k v2 = mapPut m k v2)
    ∧ evalExpr 6 (.objLit [(.ident [107], .intLit 1),
        (.ident [107], .intLit 2)]) rootChain st0
      = .ok (.object [([107], .int 2)], st0) := by
  refine ⟨fun _ _ _ _ _ _ _ => rfl, rfl, ?_, fun _ => rfl, fun _ => rfl,
    fun _ => rfl, rfl, rfl, fun _ => rfl, fun _ => rfl, fun _ => rfl,
    fun _ => rfl, fun _ _ _ _ _ => rfl, rfl, mapPut_overwrite, rfl⟩
  intro fuel k vexpr rest chain st acc h
  cases k <;> first | rfl | simp [Node.isIdent] at h

/-- Witness for `object_literal_keys`: a single String-keyed entry
evaluates to the map entry under the raw key bytes. -/
theorem object_literal_keys_witness :
    evalEntries 2 [(Node.strLit [97], Node.intLit 5)] rootChain st0 []
      = .ok ([([97], Value.int 5)], st0) := by
  have h := object_literal_keys.2.2.1 1 (.strLit [97]) (.intLit 5) []
    rootChain st0 [] rfl
  exact h.trans rfl

/-- C9: an object literal with an evaluated String key `s` stores its
entry under the raw bytes of `s`, but a property-access read with key
value String `s` looks up `s`'s display form (wrapped in single
quotes), so the read returns `Null` instead of the stored value, for
every byte string `s`; an Int key uses the same decimal form on both
sides and round-trips to the stored value, and a Float key likewise
applies the one `FloatValue.String()` formatting on both the write and
the read and round-trips, for every bit pattern. -/
theorem object_key_read_write_mismatch :
    (∀ s : GoStr, evalExpr 9 (.objLit [(.strLit s, .intLit 42)]) rootChain st0
      = .ok (.object [(s, .int 42)], st0))
    ∧ (∀ s : GoStr, valueString (.str s) = 39 :: (s ++ [39]))
    ∧ (∀ s : GoStr,
        evalExpr 9 (.propAccess (.objLit [(.strLit s, .intLit 42)])
          (.strLit s)) rootChain st0 = .ok (.null, st0))
    ∧ (∀ i : Int,
        evalExpr 9 (.propAccess (.objLit [(.intLit i, .intLit 42)])
          (.intLit i)) rootChain st0 = .ok (.int 42, st0))
    ∧ (∀ bits : Nat,
        evalExpr 9 (.objLit [(.floatLit bits, .intLit 42)]) rootChain st0
          = .ok (.object [(floatStr bits, .int 42)], st0))
    ∧ (∀ bits : Nat,
        evalExpr 9 (.propAccess (.objLit [(.floatLit bits, .intLit 42)])
          (.floatLit bits)) rootChain st0 = .ok (.int 42, st0)) := by
  refine ⟨fun _ => rfl, fun _ => rfl, ?_, ?_, fun _ => rfl, ?_⟩
  · intro s
    have hne : ((39 :: (s ++ [39]) : GoStr) == s) = false := by
      rw [beq_eq_false_iff_ne]
      intro h
      have hl := congrArg List.length h
      simp at hl
      omega
    have hlook : List.lookup (39 :: (s ++ [39])) [(s, Value.int 42)]
        = none := by
      simp [List.lookup, hne]
    show (match List.lookup (39 :: (s ++ [39])) [(s, Value.int 42)] with
          | some v => (Res.ok (v, st0) : Res (Value × Store))
          | none => .ok (.null, st0)) = .ok (.null, st0)
    rw [hlook]
  · intro i
    have hlook : List.lookup (intToDec i) [(intToDec i, Value.int 42)]
        = some (Value.int 42) := by
      simp [List.lookup]
    show (match List.lookup (intToDec i) [(intToDec i, Value.int 42)] with
          | some v => (Res.ok (v, st0) : Res (Value × Store))
          | none => .ok (.null, st0)) = .ok (.int 42, st0)
    rw [hlook]
  · intro bits
    have hlook : List.lookup (floatStr bits) [(floatStr bits, Value.int 42)]
        = some (Value.int 42) := by
      simp [List.lookup]
    show (match List.lookup (floatStr bits) [(floatStr bits, Value.int 42)]
            with
          | some v => (Res.ok (v, st0) : Res (Value × Store))
          | none => .ok (.null, st0)) = .ok (.int 42, st0)
    rw [hlook]

/-- Witness for `ifMatch_first_match_wins` on concrete branches: a
matching first branch selects its body regardless of the rest, and a
non-matching first branch falls through. -/
theorem ifMatch_first_match_wins_witness :
    (evalBranches 2 (Value.int 1)
        [(.intLit 1, .atomLit [65]), (.intLit 9, .atomLit [66])] rootChain st0
      = evalExpr 1 (.atomLit [65]) rootChain st0
    ∧ evalBranches 2 (Value.int 1)
        [(.intLit 1, .atomLit [65]), (.intLit 9, .atomLit [66])] rootChain st0
      = evalBranches 2 (Value.int 1) [(.intLit 1, .atomLit [65])] rootChain st0)
    ∧ evalBranches 2 (Value.int 5) [(.intLit 1, .atomLit [65])] rootChain st0
      = evalBranches 1 (Value.int 5) [] rootChain st0 :=
  ⟨ifMatch_first_match_wins.2.2.1 1 (.int 1) (.intLit 1) (.atomLit [65])
      [(.intLit 9, .atomLit [66])] [] rootChain st0 (.int 1) st0 rfl rfl,
   ifMatch_first_match_wins.2.2.2.1 1 (.int 5) (.intLit 1) (.atomLit [65])
      [] rootChain st0 (.int 1) st0 rfl rfl⟩

